import Mathlib

/-!
Verification of the test-execution scheduler in `tests/_utils` of the
cunumeric repository: the OMP stage's shard planning
(`tests/_utils/stages/_linux/omp.py`) and the multi-stage plan
orchestrator (`tests/_utils/test_plan.py`), shallowly embedded in Lean.
-/

namespace CunumericTest

/-- A CPU group as probed by the platform collaborator: an ordered set of
logical core ids (`system.cpus[j].ids` in the Python source). -/
structure CpuGroup where
  ids : List Nat
deriving Repr, DecidableEq

/-- The slice of `Config` that the OMP stage and the plan read:
`requested_workers`, `cpu_pin` (a string, compared against `"strict"` and
`"none"` exactly as the source does), `omps`, `ompthreads`, `utility`. -/
structure Config where
  requested_workers : Nat
  cpu_pin : String
  omps : Nat
  ompthreads : Nat
  utility : Nat
deriving Repr, DecidableEq

/-- Modelled from the spec: `adjust_workers` is imported from
`tests/_utils/stages/util.py`, which is not among the provided sources.
Per spec section 4.1 and section 8: when `requested == 0` (auto) the result is
`available`; otherwise the result is `min(available, requested)`, and a fatal
configuration error is raised exactly when `requested > 0` and
`available == 0`. -/
def adjust_workers (available requested : Nat) : Except String Nat :=
  if requested == 0 then .ok available
  else if available == 0 then .error "requested workers but no hardware available"
  else .ok (min available requested)

/-- The `StageSpec` named tuple: worker count and the per-worker shards. -/
structure StageSpec where
  workers : Nat
  shards : List (List Nat)
deriving Repr, DecidableEq

/-- The per-worker core requirement computed at omp.py lines 72-75:
`omps * ompthreads + utility + int(cpu_pin == "strict")` (bound to
the local variable `procs` in the source). -/
def coresPerWorker (config : Config) : Nat :=
  config.omps * config.ompthreads + config.utility +
    (if config.cpu_pin == "strict" then 1 else 0)

/-- The shard built for worker `i` at omp.py lines 80-82:
`tuple(sorted(chain.from_iterable(cpus[j].ids for j in range(i*procs, (i+1)*procs))))`.
Out-of-range group indices (never reached by `compute_spec`) default to an
empty group. -/
def computeShard (cpus : List CpuGroup) (procs i : Nat) : List Nat :=
  List.insertionSort (· ≤ ·)
    (((List.range' (i * procs) procs).map fun j => (cpus.getD j ⟨[]⟩).ids).flatten)

/-- OMP.compute_spec (omp.py lines 70-84): worker count is
`adjust_workers(len(cpus) // procs, requested_workers)`; shard `i` collects
the ids of groups `i*procs .. (i+1)*procs - 1`, sorted. The configuration
error raised by `adjust_workers` propagates as `.error`. -/
def compute_spec (config : Config) (cpus : List CpuGroup) : Except String StageSpec :=
  (adjust_workers (cpus.length / coresPerWorker config) config.requested_workers).map
    fun workers =>
      ⟨workers, (List.range workers).map (computeShard cpus (coresPerWorker config))⟩

/-- OMP.shard_args (omp.py lines 56-68): `--omps`, `--ompthreads` with their
values, then `--cpu-bind` with the comma-joined shard ids unless
`cpu_pin == "none"`. -/
def shard_args (shard : List Nat) (config : Config) : List String :=
  ["--omps", toString config.omps, "--ompthreads", toString config.ompthreads] ++
    (if config.cpu_pin != "none" then
      ["--cpu-bind", String.intercalate "," (shard.map toString)]
    else [])

/-- Total number of usable core ids in the inventory: the size of the union
of all groups (groups are disjoint by the data-model invariant). -/
def totalCores (cpus : List CpuGroup) : Nat :=
  (cpus.map fun g => g.ids.length).sum

/-- The flattened, group-order-preserving sequence of all core ids. -/
def flattenedIds (cpus : List CpuGroup) : List Nat :=
  (cpus.map CpuGroup.ids).flatten

/-- A completion record of one spawned worker process (the `returncode`
attribute read by the plan aggregation). -/
structure ProcResult where
  returncode : Int
deriving Repr, DecidableEq

/-- The per-stage data the plan reads after a stage has run: the stage name
and its ordered list of process completions (`stage.name`,
`stage.result.procs`). -/
structure StageRes where
  name : String
  procs : List ProcResult
deriving Repr, DecidableEq

/-- `all_procs` at test_plan.py lines 61-63:
`tuple(chain.from_iterable(s.result.procs for s in self._stages))`. -/
def allProcs (stages : List StageRes) : List ProcResult :=
  (stages.map StageRes.procs).flatten

/-- `total = len(all_procs)` (test_plan.py line 64). -/
def planTotal (stages : List StageRes) : Nat :=
  (allProcs stages).length

/-- `passed = sum(proc.returncode == 0 for proc in all_procs)`
(test_plan.py line 65). -/
def planPassed (stages : List StageRes) : Nat :=
  ((allProcs stages).filter fun p => p.returncode == 0).length

/-- The return value of TestPlan.execute (test_plan.py line 73):
`int((total - passed) > 0)`, with the subtraction taken over the integers as
in Python. -/
def executeExit (stages : List StageRes) : Nat :=
  if ((planTotal stages : Int) - (planPassed stages : Int)) > 0 then 1 else 0

/-- The ordered failure entries emitted by the loop at test_plan.py lines
128-131: for each stage in order, each completion with truthy (non-zero)
returncode, tagged with its stage name. -/
def failureEntries (stages : List StageRes) : List (String × ProcResult) :=
  (stages.map fun s => (s.procs.filter fun p => p.returncode != 0).map
    fun p => (s.name, p)).flatten

/-- TestPlan._log_failures (test_plan.py lines 122-131): nothing is logged
when `total == passed`; otherwise the failure entries are logged in stage
order and, within a stage, in completion order. -/
def logFailures (stages : List StageRes) : List (String × ProcResult) :=
  if planTotal stages == planPassed stages then [] else failureEntries stages

/-- TestPlan.__init__ (test_plan.py lines 46-48) builds one stage per
feature, in the order of `config.features`; the stage carries its feature
kind as its name and, once run, its completion records. The per-feature
outcome is supplied by the external process executor, abstracted here as
`runStage`. -/
def planStages (features : List String) (runStage : String → List ProcResult) :
    List StageRes :=
  features.map fun f => ⟨f, runStage f⟩

/-- The gpu count shown by TestPlan.intro (test_plan.py lines 79-83):
`len(system.gpus)` with an ImportError from the probe handled by reporting
`0`. The fallible probe is external and modelled as an `Except` value. -/
def introGpuCount (gpusQuery : Except String Nat) : Nat :=
  match gpusQuery with
  | .ok n => n
  | .error _ => 0

/-- The detail lines of the introductory banner (test_plan.py lines 85-89),
with the external styling collaborators elided. -/
def introDetails (features : List String) (testFileCount : Nat)
    (cpus : List CpuGroup) (gpusQuery : Except String Nat) : List String :=
  ["* Feature stages       : " ++ String.intercalate ", " features,
   "* Test files per stage : " ++ toString testFileCount,
   "* System description   : " ++ toString cpus.length ++ " cpus / " ++
     toString (introGpuCount gpusQuery) ++ " gpus"]

/-- An inventory of eight single-core CPU groups with ids 0..7, the concrete
scenario of spec section 8. -/
def cpus8 : List CpuGroup :=
  [⟨[0]⟩, ⟨[1]⟩, ⟨[2]⟩, ⟨[3]⟩, ⟨[4]⟩, ⟨[5]⟩, ⟨[6]⟩, ⟨[7]⟩]

/-- The OMP configuration of the concrete scenario of spec section 8:
auto worker count, strict pinning, one OpenMP group of two threads plus one
utility thread. -/
def strictAutoConfig : Config :=
  ⟨0, "strict", 1, 2, 1⟩

section Lemmas

lemma filter_length_eq_length_iff (p : ProcResult → Bool) (l : List ProcResult) :
    (l.filter p).length = l.length ↔ ∀ a ∈ l, p a := by
  constructor
  · intro h
    exact List.countP_eq_length.mp (by rw [List.countP_eq_length_filter, h])
  · intro h
    rw [List.filter_eq_self.mpr h]

lemma planPassed_le_planTotal (stages : List StageRes) :
    planPassed stages ≤ planTotal stages :=
  List.length_filter_le _ _

lemma planPassed_eq_planTotal_iff (stages : List StageRes) :
    planPassed stages = planTotal stages ↔ ∀ p ∈ allProcs stages, p.returncode = 0 := by
  unfold planPassed planTotal
  rw [filter_length_eq_length_iff]
  simp

lemma mem_allProcs {stages : List StageRes} {p : ProcResult} :
    p ∈ allProcs stages ↔ ∃ s ∈ stages, p ∈ s.procs := by
  unfold allProcs
  simp

lemma failureEntries_eq_nil_iff (stages : List StageRes) :
    failureEntries stages = [] ↔ ∀ p ∈ allProcs stages, p.returncode = 0 := by
  unfold failureEntries
  rw [List.flatten_eq_nil_iff]
  constructor
  · intro h p hp
    rcases mem_allProcs.mp hp with ⟨s, hs, hps⟩
    by_contra hrc
    have hmem : (s.name, p) ∈ (s.procs.filter fun q => q.returncode != 0).map
        fun q => (s.name, q) := by
      simp only [List.mem_map]
      exact ⟨p, List.mem_filter.mpr ⟨hps, by simpa using hrc⟩, rfl⟩
    have := h _ (List.mem_map.mpr ⟨s, hs, rfl⟩)
    rw [this] at hmem
    simp at hmem
  · intro h l hl
    rcases List.mem_map.mp hl with ⟨s, hs, rfl⟩
    rw [List.map_eq_nil_iff, List.filter_eq_nil_iff]
    intro q hq
    have := h q (mem_allProcs.mpr ⟨s, hs, hq⟩)
    simp [this]

lemma length_filter_ne (l : List ProcResult) :
    (l.filter fun p => p.returncode != 0).length =
      l.length - (l.filter fun p => p.returncode == 0).length := by
  induction l with
  | nil => rfl
  | cons a t ih =>
    have hle := List.length_filter_le (fun p : ProcResult => p.returncode == 0) t
    by_cases h : a.returncode = 0 <;>
      simp [List.filter_cons, h, ih] <;> omega

lemma failureEntries_length (stages : List StageRes) :
    (failureEntries stages).length = planTotal stages - planPassed stages := by
  induction stages with
  | nil => rfl
  | cons s rest ih =>
    have h1 : failureEntries (s :: rest) =
        ((s.procs.filter fun p => p.returncode != 0).map fun p => (s.name, p)) ++
          failureEntries rest := by
      unfold failureEntries
      simp
    have h2 : planTotal (s :: rest) = s.procs.length + planTotal rest := by
      unfold planTotal allProcs
      simp
    have h3 : planPassed (s :: rest) =
        (s.procs.filter fun p => p.returncode == 0).length + planPassed rest := by
      unfold planPassed allProcs
      simp
    have hle1 := List.length_filter_le (fun p : ProcResult => p.returncode == 0) s.procs
    have hle2 : planPassed rest ≤ planTotal rest :=
      List.length_filter_le _ _
    rw [h1, h2, h3, List.length_append, List.length_map, length_filter_ne, ih]
    omega

lemma logFailures_eq_failureEntries (stages : List StageRes) :
    logFailures stages = failureEntries stages := by
  unfold logFailures
  split
  · next h =>
    have h2 : planPassed stages = planTotal stages := by
      have := (beq_iff_eq (a := planTotal stages) (b := planPassed stages)).mp h
      omega
    rw [eq_comm, failureEntries_eq_nil_iff]
    exact (planPassed_eq_planTotal_iff stages).mp h2
  · rfl

lemma adjust_workers_le {a r w : Nat} (h : adjust_workers a r = .ok w) : w ≤ a := by
  unfold adjust_workers at h
  by_cases h1 : r = 0
  · simp [h1] at h
    omega
  · by_cases h2 : a = 0
    · simp [h1, h2] at h
    · simp [h1, h2] at h
      omega

lemma compute_spec_ok_elim {config : Config} {cpus : List CpuGroup} {spec : StageSpec}
    (h : compute_spec config cpus = .ok spec) :
    adjust_workers (cpus.length / coresPerWorker config) config.requested_workers =
      .ok spec.workers ∧
    spec.shards = (List.range spec.workers).map (computeShard cpus (coresPerWorker config)) := by
  unfold compute_spec at h
  cases hadj : adjust_workers (cpus.length / coresPerWorker config)
      config.requested_workers with
  | error e =>
    rw [hadj] at h
    exact absurd h (by simp [Except.map])
  | ok w =>
    rw [hadj] at h
    have h2 : (⟨w, (List.range w).map (computeShard cpus (coresPerWorker config))⟩ :
        StageSpec) = spec := by
      simpa [Except.map] using h
    subst h2
    exact ⟨rfl, rfl⟩

lemma compute_spec_shards_length {config : Config} {cpus : List CpuGroup}
    {spec : StageSpec} (h : compute_spec config cpus = .ok spec) :
    spec.shards.length = spec.workers := by
  rw [(compute_spec_ok_elim h).2]
  simp

lemma compute_spec_shards_getElem {config : Config} {cpus : List CpuGroup}
    {spec : StageSpec} (h : compute_spec config cpus = .ok spec) {i : Nat}
    (hi : i < spec.shards.length) :
    spec.shards[i] = computeShard cpus (coresPerWorker config) i := by
  obtain ⟨_, hshards⟩ := compute_spec_ok_elim h
  rw [List.getElem_of_eq hshards hi]
  have hi2 : i < spec.workers := by
    have := compute_spec_shards_length h
    omega
  simp [hi2]

lemma shard_bound {config : Config} {cpus : List CpuGroup} {spec : StageSpec}
    (h : compute_spec config cpus = .ok spec) {i : Nat} (hi : i < spec.workers) :
    (i + 1) * coresPerWorker config ≤ cpus.length := by
  obtain ⟨hadj, _⟩ := compute_spec_ok_elim h
  have hw : spec.workers ≤ cpus.length / coresPerWorker config := adjust_workers_le hadj
  have h1 : i + 1 ≤ cpus.length / coresPerWorker config := by omega
  calc (i + 1) * coresPerWorker config
      ≤ (cpus.length / coresPerWorker config) * coresPerWorker config :=
        Nat.mul_le_mul_right _ h1
    _ ≤ cpus.length := Nat.div_mul_le_self _ _

lemma map_getD_range' {α : Type} (l : List α) (d : α) :
    ∀ (n s : Nat), s + n ≤ l.length →
      (List.range' s n).map (fun j => l.getD j d) = (l.drop s).take n := by
  intro n
  induction n with
  | zero =>
    intro s h
    simp
  | succ n ih =>
    intro s h
    have hs : s < l.length := by omega
    rw [List.range'_succ, List.map_cons, List.getD_eq_getElem l d hs,
      List.drop_eq_getElem_cons hs, List.take_succ_cons, ih (s + 1) (by omega)]

lemma computeShard_eq_slice (cpus : List CpuGroup) (k i : Nat)
    (h : (i + 1) * k ≤ cpus.length) :
    computeShard cpus k i =
      List.insertionSort (fun a b => a ≤ b)
        ((((cpus.drop (i * k)).take k).map CpuGroup.ids).flatten) := by
  unfold computeShard
  congr 1
  rw [← map_getD_range' cpus ⟨[]⟩ k (i * k) (by rw [← Nat.succ_mul]; exact h),
    List.map_map]
  rfl

lemma sum_map_ones {α : Type} (l : List α) (f : α → Nat) (h : ∀ a ∈ l, f a = 1) :
    (l.map f).sum = l.length := by
  induction l with
  | nil => rfl
  | cons a t ih =>
    simp only [List.map_cons, List.sum_cons, List.length_cons,
      h a (List.mem_cons_self a t), ih fun b hb => h b (List.mem_cons_of_mem a hb)]
    omega

lemma computeShard_disjoint {cpus : List CpuGroup}
    (hdisj : cpus.Pairwise fun g1 g2 => g1.ids.Disjoint g2.ids)
    {k i j : Nat} (hij : i < j) :
    (computeShard cpus k i).Disjoint (computeShard cpus k j) := by
  intro x hxi hxj
  unfold computeShard at hxi hxj
  rw [List.mem_insertionSort, List.mem_flatten] at hxi hxj
  obtain ⟨la, hla, hxa⟩ := hxi
  obtain ⟨lb, hlb, hxb⟩ := hxj
  obtain ⟨a, ha, rfl⟩ := List.mem_map.mp hla
  obtain ⟨b, hb, rfl⟩ := List.mem_map.mp hlb
  rw [List.mem_range'_1] at ha hb
  have h1 : i * k + k ≤ j * k := by
    have h2 := Nat.mul_le_mul_right k (show i + 1 ≤ j by omega)
    rw [Nat.succ_mul] at h2
    exact h2
  have hab : a < b := by omega
  by_cases hbl : b < cpus.length
  · have hal : a < cpus.length := lt_trans hab hbl
    rw [List.getD_eq_getElem _ _ hal] at hxa
    rw [List.getD_eq_getElem _ _ hbl] at hxb
    exact List.pairwise_iff_getElem.mp hdisj a b hal hbl hab hxa hxb
  · rw [List.getD_eq_default _ _ (by omega)] at hxb
    simp at hxb

end Lemmas

/-- C1, counterexample: for the inventory with a single CpuGroup holding the
eight core ids 0..7 and the strict OMP configuration with
`cores_per_worker = 4`, the claim demands
`worker_count == floor(total_usable_cores / 4) == 2`, but `compute_spec`
divides the number of CPU groups (1) by 4 and returns `worker_count == 0`. -/
theorem compute_spec_total_cores_cex :
    (compute_spec strictAutoConfig [⟨[0, 1, 2, 3, 4, 5, 6, 7]⟩]).map StageSpec.workers =
      .ok 0 ∧
    totalCores [⟨[0, 1, 2, 3, 4, 5, 6, 7]⟩] / coresPerWorker strictAutoConfig = 2 ∧
    (0 : Nat) ≠ 2 :=
  ⟨rfl, rfl, by decide⟩

/-- C1, amended: with `requested_workers == 0` and `cores_per_worker = k ≥ 1`,
the worker count is `floor(G / k)` where `G` is the number of CpuGroups
(`len(system.cpus)`), not the number of core ids; the two agree exactly when
every group holds a single core id. -/
theorem compute_spec_workers_auto (config : Config) (cpus : List CpuGroup)
    (hk : 1 ≤ coresPerWorker config) (hreq : config.requested_workers = 0) :
    (compute_spec config cpus).map StageSpec.workers =
      .ok (cpus.length / coresPerWorker config) ∧
    ((∀ g ∈ cpus, g.ids.length = 1) →
      (compute_spec config cpus).map StageSpec.workers =
        .ok (totalCores cpus / coresPerWorker config)) := by
  have h1 : (compute_spec config cpus).map StageSpec.workers =
      .ok (cpus.length / coresPerWorker config) := by
    unfold compute_spec adjust_workers
    rw [hreq]
    rfl
  refine ⟨h1, fun hone => ?_⟩
  unfold totalCores
  rw [sum_map_ones cpus _ hone]
  exact h1

/-- C1 witness: on the eight-single-core-group inventory with
`cores_per_worker = 4`, the auto worker count is `8 / 4 = 2`. -/
theorem compute_spec_workers_auto_witness :
    (compute_spec strictAutoConfig cpus8).map StageSpec.workers =
      .ok (cpus8.length / coresPerWorker strictAutoConfig) :=
  (compute_spec_workers_auto strictAutoConfig cpus8 (by decide) rfl).1

/-- C2, counterexample: with four two-core groups and `cores_per_worker = 4`,
`compute_spec` yields one worker whose shard holds the eight ids of four
whole groups, not exactly four ids as the claim states. -/
theorem compute_spec_shard_size_cex :
    compute_spec strictAutoConfig [⟨[0, 1]⟩, ⟨[2, 3]⟩, ⟨[4, 5]⟩, ⟨[6, 7]⟩] =
      .ok ⟨1, [[0, 1, 2, 3, 4, 5, 6, 7]]⟩ ∧
    coresPerWorker strictAutoConfig = 4 ∧
    ([0, 1, 2, 3, 4, 5, 6, 7] : List Nat).length ≠ 4 :=
  ⟨rfl, rfl, by decide⟩

/-- C2, amended: every StageSpec returned by OMP.compute_spec has
`len(shards) == worker_count` and (for an inventory of pairwise-disjoint
groups) no core id in two different shards; each shard holds the ids of
exactly `cores_per_worker` whole CpuGroups, so its size is
`cores_per_worker` when every group holds exactly one id (in particular for
single-core groups the claim's size statement holds). -/
theorem compute_spec_shard_invariants (config : Config) (cpus : List CpuGroup)
    (spec : StageSpec) (h : compute_spec config cpus = .ok spec)
    (hdisj : cpus.Pairwise fun g1 g2 => g1.ids.Disjoint g2.ids) :
    spec.shards.length = spec.workers ∧
    spec.shards.Pairwise List.Disjoint ∧
    (∀ i, ∀ hi : i < spec.shards.length,
      (spec.shards[i]).length =
        ((((cpus.drop (i * coresPerWorker config)).take (coresPerWorker config)).map
          fun g => g.ids.length).sum)) ∧
    ((∀ g ∈ cpus, g.ids.length = 1) →
      ∀ s ∈ spec.shards, s.length = coresPerWorker config) := by
  obtain ⟨hadj, hshards⟩ := compute_spec_ok_elim h
  have hlen : spec.shards.length = spec.workers := compute_spec_shards_length h
  have hsize : ∀ i, ∀ hi : i < spec.shards.length,
      (spec.shards[i]).length =
        ((((cpus.drop (i * coresPerWorker config)).take (coresPerWorker config)).map
          fun g => g.ids.length).sum) := by
    intro i hi
    have hiw : i < spec.workers := by omega
    have hb := shard_bound h hiw
    rw [compute_spec_shards_getElem h hi, computeShard_eq_slice _ _ _ hb,
      List.length_insertionSort, List.length_flatten, List.map_map]
    rfl
  refine ⟨hlen, ?_, hsize, ?_⟩
  · rw [hshards, List.pairwise_map]
    exact (List.pairwise_lt_range spec.workers).imp
      fun hab => computeShard_disjoint hdisj hab
  · intro hone s hs
    obtain ⟨i, hi, rfl⟩ := List.mem_iff_getElem.mp hs
    have hiw : i < spec.workers := by omega
    have hb : i * coresPerWorker config + coresPerWorker config ≤ cpus.length := by
      have := shard_bound h hiw
      rw [Nat.succ_mul] at this
      exact this
    rw [hsize i hi, sum_map_ones _ _ ?_, List.length_take, List.length_drop]
    · omega
    · intro g hg
      exact hone g (List.mem_of_mem_drop (List.mem_of_mem_take hg))

/-- C2 witness: on the eight-single-core-group inventory the computed
StageSpec has two shards for two workers. -/
theorem compute_spec_shard_invariants_witness :
    (⟨2, [[0, 1, 2, 3], [4, 5, 6, 7]]⟩ : StageSpec).shards.length = 2 :=
  (compute_spec_shard_invariants strictAutoConfig cpus8
    ⟨2, [[0, 1, 2, 3], [4, 5, 6, 7]]⟩ rfl
    (by simp [cpus8, List.pairwise_cons, List.Disjoint])).1

/-- C3, counterexample: with two two-core groups and `cores_per_worker = 1`,
worker 0's shard is the whole first group `[0, 1]`, not the first
`cores_per_worker` positions `[0]` of the flattened id sequence as the claim
states. -/
theorem compute_spec_flat_slice_cex :
    compute_spec ⟨0, "none", 1, 1, 0⟩ [⟨[0, 1]⟩, ⟨[2, 3]⟩] =
      .ok ⟨2, [[0, 1], [2, 3]]⟩ ∧
    coresPerWorker ⟨0, "none", 1, 1, 0⟩ = 1 ∧
    (flattenedIds [⟨[0, 1]⟩, ⟨[2, 3]⟩]).take 1 = [0] ∧
    ([0, 1] : List Nat) ≠ [0] :=
  ⟨rfl, rfl, rfl, by decide⟩

/-- C3, amended: worker `i` receives the sorted ids of the CpuGroups at
positions `[i*cores_per_worker, (i+1)*cores_per_worker)` of the group
sequence (which coincides with the claimed flattened-id slice only for
single-core groups); the concrete scenario (eight single-core groups,
strict pinning, omps=1, ompthreads=2, utility=1, auto workers) yields two
workers with shards `[0,1,2,3]` and `[4,5,6,7]`. -/
theorem compute_spec_group_slices :
    (∀ config cpus spec, compute_spec config cpus = Except.ok spec →
      ∀ i, ∀ hi : i < spec.shards.length,
        spec.shards[i] = List.insertionSort (fun a b => a ≤ b)
          ((((cpus.drop (i * coresPerWorker config)).take (coresPerWorker config)).map
            CpuGroup.ids).flatten)) ∧
    compute_spec strictAutoConfig cpus8 =
      Except.ok ⟨2, [[0, 1, 2, 3], [4, 5, 6, 7]]⟩ := by
  constructor
  · intro config cpus spec h i hi
    have hiw : i < spec.workers := by
      have := compute_spec_shards_length h
      omega
    rw [compute_spec_shards_getElem h hi,
      computeShard_eq_slice _ _ _ (shard_bound h hiw)]
  · rfl

/-- C3 witness: instantiating the slice description at worker 0 of the
concrete scenario. -/
theorem compute_spec_group_slices_witness :
    (⟨2, [[0, 1, 2, 3], [4, 5, 6, 7]]⟩ : StageSpec).shards[0] =
      List.insertionSort (fun a b => a ≤ b)
        ((((cpus8.drop (0 * coresPerWorker strictAutoConfig)).take
          (coresPerWorker strictAutoConfig)).map CpuGroup.ids).flatten) :=
  compute_spec_group_slices.1 strictAutoConfig cpus8
    ⟨2, [[0, 1, 2, 3], [4, 5, 6, 7]]⟩ rfl 0 (by decide)

/-- C4: adjust_workers clamps to `min(available, requested)` for a positive
request with positive availability, passes `available` through on a zero
request, errors exactly when `requested > 0` and `available == 0`, and in
particular returns 2 for `available == 2, requested == 5` without error. -/
theorem adjust_workers_clamps :
    (∀ available requested : Nat, 0 < requested → 0 < available →
      adjust_workers available requested = .ok (min available requested)) ∧
    (∀ available : Nat, adjust_workers available 0 = .ok available) ∧
    (∀ available requested : Nat,
      (∃ e, adjust_workers available requested = .error e) ↔
        0 < requested ∧ available = 0) ∧
    adjust_workers 2 5 = .ok 2 := by
  refine ⟨?_, ?_, ?_, rfl⟩
  · intro a r hr ha
    have h1 : r ≠ 0 := by omega
    have h2 : a ≠ 0 := by omega
    simp [adjust_workers, h1, h2]
  · intro a
    simp [adjust_workers]
  · intro a r
    constructor
    · rintro ⟨e, he⟩
      unfold adjust_workers at he
      by_cases h1 : r = 0
      · simp [h1] at he
      · by_cases h2 : a = 0
        · exact ⟨by omega, h2⟩
        · simp [h1, h2] at he
    · rintro ⟨hr, ha⟩
      have h1 : r ≠ 0 := by omega
      exact ⟨"requested workers but no hardware available",
        by simp [adjust_workers, h1, ha]⟩

/-- C4 witness: a positive request below availability is honored exactly. -/
theorem adjust_workers_clamps_witness :
    (0 : Nat) < 2 ∧ (0 : Nat) < 3 ∧ adjust_workers 3 2 = .ok (min 3 2) :=
  ⟨by decide, by decide, adjust_workers_clamps.1 3 2 (by decide) (by decide)⟩

/-- C5: TestPlan.execute returns 0 exactly when every completion across all
stages has returncode 0, returns only 0 or 1, and returns 0 when nothing
ran at all. -/
theorem execute_exit_contract :
    (∀ stages : List StageRes,
      (executeExit stages = 0 ↔ ∀ p ∈ allProcs stages, p.returncode = 0) ∧
      (executeExit stages = 0 ∨ executeExit stages = 1)) ∧
    executeExit [] = 0 := by
  refine ⟨fun stages => ⟨?_, ?_⟩, by decide⟩
  · unfold executeExit
    rw [← planPassed_eq_planTotal_iff]
    have hle := planPassed_le_planTotal stages
    split
    · next h =>
      constructor
      · intro h0
        omega
      · intro h0
        omega
    · next h =>
      constructor
      · intro h0
        omega
      · intro h0
        rfl
  · unfold executeExit
    split <;> simp

/-- C5 witness: a single stage whose single completion passed yields exit
code 0. -/
theorem execute_exit_contract_witness :
    executeExit [⟨"openmp", [⟨0⟩]⟩] = 0 :=
  (execute_exit_contract.1 [⟨"openmp", [⟨0⟩]⟩]).1.mpr (by decide)

/-- C6: the failure report is empty exactly when `total == passed`;
otherwise it is exactly the in-order list of non-zero completions, one
entry per failing completion (so its length is `total - passed`), each
entry tagged with its originating stage's name, in stage order and within
a stage in completion order. -/
theorem log_failures_contract (stages : List StageRes) :
    (logFailures stages = [] ↔ planTotal stages = planPassed stages) ∧
    logFailures stages = failureEntries stages ∧
    (logFailures stages).length = planTotal stages - planPassed stages ∧
    (∀ e ∈ logFailures stages,
      ∃ s ∈ stages, e.1 = s.name ∧ e.2 ∈ s.procs ∧ e.2.returncode ≠ 0) := by
  have heq := logFailures_eq_failureEntries stages
  have hle := planPassed_le_planTotal stages
  refine ⟨?_, heq, ?_, ?_⟩
  · rw [heq, failureEntries_eq_nil_iff, ← planPassed_eq_planTotal_iff]
    omega
  · rw [heq, failureEntries_length]
  · rw [heq]
    intro e he
    unfold failureEntries at he
    rcases List.mem_flatten.mp he with ⟨l, hl, hel⟩
    rcases List.mem_map.mp hl with ⟨s, hs, rfl⟩
    rcases List.mem_map.mp hel with ⟨q, hq, rfl⟩
    rcases List.mem_filter.mp hq with ⟨hq1, hq2⟩
    exact ⟨s, hs, rfl, hq1, by simpa using hq2⟩

/-- C6 witness: on a single stage with one failing completion the report
equals the in-order failure entries. -/
theorem log_failures_contract_witness :
    logFailures [⟨"openmp", [⟨1⟩]⟩] = failureEntries [⟨"openmp", [⟨1⟩]⟩] :=
  (log_failures_contract [⟨"openmp", [⟨1⟩]⟩]).2.1

/-- C7: the plan builds one stage per feature in the order of
`config.features`; the stage-name sequence equals the feature sequence, and
the failure entries are grouped by stage in that same order (their
stage-name projection is the features list with each feature repeated once
per failing completion of its stage). -/
theorem stage_order_preserved (features : List String)
    (runStage : String → List ProcResult) :
    (planStages features runStage).map StageRes.name = features ∧
    failureEntries (planStages features runStage) =
      (features.map fun f => ((runStage f).filter fun p => p.returncode != 0).map
        fun p => (f, p)).flatten ∧
    (failureEntries (planStages features runStage)).map Prod.fst =
      (features.map fun f =>
        List.replicate ((runStage f).countP fun p => p.returncode != 0) f).flatten := by
  refine ⟨?_, ?_, ?_⟩
  · unfold planStages
    rw [List.map_map]
    exact List.map_id features
  · unfold planStages failureEntries
    rw [List.map_map]
    rfl
  · unfold planStages failureEntries
    rw [List.map_map, List.map_flatten]
    simp only [List.map_map]
    refine congrArg List.flatten (List.map_congr_left ?_)
    intro f hf
    simp [Function.comp, List.map_const', List.countP_eq_length_filter]

/-- C7 witness: two features produce two stages named in order. -/
theorem stage_order_preserved_witness :
    (planStages ["cpus", "openmp"] fun f => [⟨0⟩]).map StageRes.name =
      ["cpus", "openmp"] :=
  (stage_order_preserved ["cpus", "openmp"] fun f => [⟨0⟩]).1

/-- C8: shard_args starts with `--omps`, omps, `--ompthreads`, ompthreads;
it appends `--cpu-bind` with the comma-joined shard exactly when
`cpu_pin != "none"`; and every shard produced by compute_spec is in
ascending order. -/
theorem shard_args_contract :
    (∀ (shard : List Nat) (config : Config), (shard_args shard config).take 4 =
      ["--omps", toString config.omps, "--ompthreads", toString config.ompthreads]) ∧
    (∀ (shard : List Nat) (config : Config), (shard_args shard config =
      ["--omps", toString config.omps, "--ompthreads", toString config.ompthreads,
        "--cpu-bind", String.intercalate "," (shard.map toString)]) ↔
      config.cpu_pin ≠ "none") ∧
    (∀ config cpus spec, compute_spec config cpus = Except.ok spec →
      ∀ s ∈ spec.shards, List.Sorted (fun a b => a ≤ b) s) := by
  refine ⟨?_, ?_, ?_⟩
  · intro shard config
    unfold shard_args
    split <;> rfl
  · intro shard config
    constructor
    · intro h
      by_cases hp : config.cpu_pin = "none"
      · rw [shard_args, if_neg (by simp [hp])] at h
        have := congrArg List.length h
        simp at this
      · exact hp
    · intro hp
      rw [shard_args, if_pos (by simpa using hp)]
      rfl
  · intro config cpus spec h s hs
    obtain ⟨_, hshards⟩ := compute_spec_ok_elim h
    rw [hshards] at hs
    obtain ⟨i, hi, rfl⟩ := List.mem_map.mp hs
    exact List.sorted_insertionSort _ _

/-- C8 witness: worker 0's shard of the concrete scenario is sorted, and its
arguments carry the ascending binding list under strict pinning. -/
theorem shard_args_contract_witness :
    List.Sorted (fun a b : Nat => a ≤ b) [0, 1, 2, 3] :=
  shard_args_contract.2.2 strictAutoConfig cpus8
    ⟨2, [[0, 1, 2, 3], [4, 5, 6, 7]]⟩ rfl [0, 1, 2, 3] (by decide)

/-- C9: when the gpu probe raises (modelled as an `error` outcome), the
intro banner reports a gpu count of 0 and is produced exactly as for a
successful probe of 0 gpus, rather than crashing. -/
theorem intro_gpu_error_reports_zero (features : List String) (testFileCount : Nat)
    (cpus : List CpuGroup) (e : String) :
    introGpuCount (.error e) = 0 ∧
    introDetails features testFileCount cpus (.error e) =
      introDetails features testFileCount cpus (.ok 0) :=
  ⟨rfl, rfl⟩

/-- C9 witness: a concrete unavailable-toolkit error is reported as 0. -/
theorem intro_gpu_error_reports_zero_witness :
    introGpuCount (.error "No module named cunumeric") = 0 :=
  (intro_gpu_error_reports_zero [] 0 [] "No module named cunumeric").1

/-- C10: the aggregated pass count never exceeds the total count: passed
counts the zero-returncode subset of the very completion sequence whose
length is the total. -/
theorem plan_passed_le_total (stages : List StageRes) :
    planPassed stages ≤ planTotal stages :=
  List.length_filter_le _ _

/-- C10 witness: with one passing and one failing completion, passed (1)
does not exceed total (2). -/
theorem plan_passed_le_total_witness :
    planPassed [⟨"openmp", [⟨0⟩, ⟨1⟩]⟩] ≤ planTotal [⟨"openmp", [⟨0⟩, ⟨1⟩]⟩] :=
  plan_passed_le_total [⟨"openmp", [⟨0⟩, ⟨1⟩]⟩]

end CunumericTest
